import Mathlib

/-!
Shallow embedding of the blackjack rules engine from `src/utils/blackjack.ts`,
together with theorems checking the specification's claims about it.

Modelling conventions:
* JavaScript numbers that only ever hold integers (hand values, counts,
  split counters) are `Nat`; monetary amounts and the penetration fraction,
  which use fractional literals (`2.5`, `0.75`), are `ℚ` (both are exactly
  representable in binary floating point, so `ℚ` is exact for them).
* `Math.random()`-driven index choice in the Fisher-Yates shuffle is
  modelled by an oracle `r : Nat → Nat` giving, for each loop index `i`,
  the chosen index `j = Math.floor(Math.random() * (i + 1))`; the source
  guarantees `j ≤ i`, which becomes a hypothesis.
* All source functions are pure (they copy rather than mutate), so they
  embed directly as Lean functions; "does not mutate its input" holds by
  construction in the embedding.
-/

/-- Card suits (`'♠' | '♥' | '♦' | '♣'`). -/
inductive Suit where
  | spades
  | hearts
  | diamonds
  | clubs
deriving DecidableEq, Repr

/-- Card ranks (`'A' | '2' | ... | '10' | 'J' | 'Q' | 'K'`). -/
inductive Rank where
  | ace
  | two
  | three
  | four
  | five
  | six
  | seven
  | eight
  | nine
  | ten
  | jack
  | queen
  | king
deriving DecidableEq, Repr

/-- The `Card` interface: rank, suit and the optional flags (absent flags
are falsy in JavaScript, so they default to `false`). -/
structure Card where
  rank : Rank
  suit : Suit
  faceDown : Bool := false
  isNew : Bool := false
deriving DecidableEq, Repr

/-- The `HandResult` interface returned by `calculateHandValue`. -/
structure HandResult where
  value : Nat
  isSoft : Bool
  isBusted : Bool
  isBlackjack : Bool
deriving DecidableEq, Repr

/-- The `GameConfig` interface. -/
structure GameConfig where
  numDecks : Nat
  penetration : ℚ
  dealerHitsSoft17 : Bool
  dasAllowed : Bool
  rsaAllowed : Bool
  lateSurrenderAllowed : Bool
  maxSplits : Nat
deriving DecidableEq, Repr

/-- The `DEFAULT_CONFIG` constant. -/
def DEFAULT_CONFIG : GameConfig :=
  { numDecks := 6
    penetration := 0.75
    dealerHitsSoft17 := true
    dasAllowed := true
    rsaAllowed := false
    lateSurrenderAllowed := true
    maxSplits := 3 }

/-- The `CARD_VALUES` lookup table (ace is nominally 11). -/
def cardValue : Rank → Nat
  | .ace => 11
  | .two => 2
  | .three => 3
  | .four => 4
  | .five => 5
  | .six => 6
  | .seven => 7
  | .eight => 8
  | .nine => 9
  | .ten => 10
  | .jack => 10
  | .queen => 10
  | .king => 10

/-- The `while (value > 21 && aces > 0) { value -= 10; aces--; }` loop of
`calculateHandValue`, as structural recursion on the ace counter.  Returns
the final `value` and the number of aces still counted as 11. -/
def reduceAces : Nat → Nat → Nat × Nat
  | value, 0 => (value, 0)
  | value, aces + 1 =>
    if 21 < value then reduceAces (value - 10) aces
    else (value, aces + 1)

/-- The `calculateHandValue` function: filter out face-down cards, sum
nominal values while counting aces, then reduce aces from 11 to 1 while
busting. -/
def calculateHandValue (cards : List Card) : HandResult :=
  let visible := cards.filter (fun c => !c.faceDown)
  let acc := visible.foldl
    (fun (p : Nat × Nat) c =>
      (p.1 + cardValue c.rank, if c.rank = Rank.ace then p.2 + 1 else p.2))
    (0, 0)
  let vr := reduceAces acc.1 acc.2
  { value := vr.1
    isSoft := decide (0 < vr.2) && decide (vr.1 ≤ 21)
    isBusted := decide (21 < vr.1)
    isBlackjack := decide (visible.length = 2) && decide (vr.1 = 21) }

/-! ### Specification-level quantities for hand valuation

`lowSum` is the total with every ace counted as 1, `aceCount` the number of
visible aces; the possible totals of a hand are `lowSum + 10 * k` for
`k ≤ aceCount` aces counted as 11.  `bestK` is the number of aces the
reduction loop leaves counted as 11. -/

/-- Value of a rank with an ace counted low (1). -/
def lowValue : Rank → Nat
  | .ace => 1
  | .two => 2
  | .three => 3
  | .four => 4
  | .five => 5
  | .six => 6
  | .seven => 7
  | .eight => 8
  | .nine => 9
  | .ten => 10
  | .jack => 10
  | .queen => 10
  | .king => 10

/-- Sum of low values of a list of cards. -/
def lowSum (cards : List Card) : Nat :=
  (cards.map (fun c => lowValue c.rank)).sum

/-- Sum of nominal values (ace = 11) of a list of cards. -/
def nominalSum (cards : List Card) : Nat :=
  (cards.map (fun c => cardValue c.rank)).sum

/-- Number of aces in a list of cards. -/
def aceCount (cards : List Card) : Nat :=
  cards.countP (fun c => decide (c.rank = Rank.ace))

/-- The greatest `k ≤ a` with `base + 10 * k ≤ 21`, or `0` when there is
none: the number of aces the reduction loop leaves counted as 11. -/
def bestK (base : Nat) : Nat → Nat
  | 0 => 0
  | a + 1 => if base + 10 * (a + 1) ≤ 21 then a + 1 else bestK base a

theorem cardValue_eq_lowValue (r : Rank) :
    cardValue r = lowValue r + (if r = Rank.ace then 10 else 0) := by
  cases r <;> simp [cardValue, lowValue]

theorem nominalSum_eq_lowSum_add (cards : List Card) :
    nominalSum cards = lowSum cards + 10 * aceCount cards := by
  induction cards with
  | nil => rfl
  | cons c t ih =>
    simp only [nominalSum, lowSum, aceCount, List.map_cons, List.sum_cons,
      List.countP_cons] at ih ⊢
    rw [cardValue_eq_lowValue]
    by_cases hc : c.rank = Rank.ace <;> simp [hc] <;> omega

theorem foldl_value_aces (cards : List Card) : ∀ v a : Nat,
    cards.foldl
      (fun (p : Nat × Nat) c =>
        (p.1 + cardValue c.rank, if c.rank = Rank.ace then p.2 + 1 else p.2))
      (v, a) = (v + nominalSum cards, a + aceCount cards) := by
  induction cards with
  | nil => intro v a; simp [nominalSum, aceCount]
  | cons c t ih =>
    intro v a
    simp only [List.foldl_cons, ih, nominalSum, aceCount, List.map_cons,
      List.sum_cons, List.countP_cons, Prod.mk.injEq]
    by_cases hc : c.rank = Rank.ace <;> simp [hc] <;> omega

theorem bestK_le (base : Nat) : ∀ a : Nat, bestK base a ≤ a := by
  intro a
  induction a with
  | zero => simp [bestK]
  | succ n ih =>
    simp only [bestK]
    split
    · exact Nat.le_refl _
    · exact Nat.le_succ_of_le ih

theorem bestK_max (base : Nat) : ∀ a k : Nat, k ≤ a → base + 10 * k ≤ 21 →
    k ≤ bestK base a := by
  intro a
  induction a with
  | zero => intro k hk _; omega
  | succ n ih =>
    intro k hk hle
    simp only [bestK]
    split
    · exact hk
    · rename_i hcond
      have hkn : k ≤ n := by
        rcases Nat.lt_or_ge k (n + 1) with h | h
        · omega
        · exact absurd hle (by omega)
      exact ih k hkn hle

theorem bestK_good (base : Nat) : ∀ a : Nat,
    base + 10 * bestK base a ≤ 21 ∨ bestK base a = 0 := by
  intro a
  induction a with
  | zero => right; rfl
  | succ n ih =>
    simp only [bestK]
    split
    · left; assumption
    · exact ih

theorem reduceAces_eq (base : Nat) : ∀ a : Nat,
    reduceAces (base + 10 * a) a = (base + 10 * bestK base a, bestK base a) := by
  intro a
  induction a with
  | zero => simp [reduceAces, bestK]
  | succ n ih =>
    simp only [reduceAces, bestK]
    rcases Nat.lt_or_ge 21 (base + 10 * (n + 1)) with h | h
    · rw [if_pos h, if_neg (by omega)]
      have harg : base + 10 * (n + 1) - 10 = base + 10 * n := by omega
      rw [harg, ih]
    · rw [if_neg (by omega), if_pos h]

/-- Closed form for `calculateHandValue` in terms of `lowSum`, `aceCount`
and `bestK` over the visible cards. -/
theorem calculateHandValue_eq (cards : List Card) :
    calculateHandValue cards =
      { value := lowSum (cards.filter (fun c => !c.faceDown)) +
          10 * bestK (lowSum (cards.filter (fun c => !c.faceDown)))
            (aceCount (cards.filter (fun c => !c.faceDown)))
        isSoft := decide (0 < bestK (lowSum (cards.filter (fun c => !c.faceDown)))
            (aceCount (cards.filter (fun c => !c.faceDown)))) &&
          decide (lowSum (cards.filter (fun c => !c.faceDown)) +
            10 * bestK (lowSum (cards.filter (fun c => !c.faceDown)))
              (aceCount (cards.filter (fun c => !c.faceDown))) ≤ 21)
        isBusted := decide (21 < lowSum (cards.filter (fun c => !c.faceDown)) +
          10 * bestK (lowSum (cards.filter (fun c => !c.faceDown)))
            (aceCount (cards.filter (fun c => !c.faceDown))))
        isBlackjack := decide ((cards.filter (fun c => !c.faceDown)).length = 2) &&
          decide (lowSum (cards.filter (fun c => !c.faceDown)) +
            10 * bestK (lowSum (cards.filter (fun c => !c.faceDown)))
              (aceCount (cards.filter (fun c => !c.faceDown))) = 21) } := by
  simp only [calculateHandValue, foldl_value_aces, Nat.zero_add,
    nominalSum_eq_lowSum_add, reduceAces_eq]

/-- C1: `calculateHandValue` works over only the visible cards; its value is
the best non-busting total achievable by counting each ace as 1 or 11 (all
totals have the form `lowSum + 10 * k` for `k ≤ aceCount` aces counted as
11), or the fully-reduced (all aces low) total when every choice busts;
`isSoft` holds iff some ace still counts as 11 (value exceeds the all-low
total by at least 10) and the value is at most 21; `isBusted` iff the value
exceeds 21; `isBlackjack` iff exactly two visible cards total 21; and an
empty or all-face-down hand yields value 0 with all flags false. -/
theorem claim_C1_calculateHandValue (cards : List Card) :
    calculateHandValue cards = calculateHandValue (cards.filter (fun c => !c.faceDown))
    ∧ ((∃ k, k ≤ aceCount (cards.filter (fun c => !c.faceDown)) ∧
          lowSum (cards.filter (fun c => !c.faceDown)) + 10 * k ≤ 21) →
        (∃ k, k ≤ aceCount (cards.filter (fun c => !c.faceDown)) ∧
          (calculateHandValue cards).value =
            lowSum (cards.filter (fun c => !c.faceDown)) + 10 * k ∧
          (calculateHandValue cards).value ≤ 21 ∧
          ∀ k2, k2 ≤ aceCount (cards.filter (fun c => !c.faceDown)) →
            lowSum (cards.filter (fun c => !c.faceDown)) + 10 * k2 ≤ 21 →
            lowSum (cards.filter (fun c => !c.faceDown)) + 10 * k2 ≤
              (calculateHandValue cards).value))
    ∧ ((∀ k, k ≤ aceCount (cards.filter (fun c => !c.faceDown)) →
          21 < lowSum (cards.filter (fun c => !c.faceDown)) + 10 * k) →
        (calculateHandValue cards).value = lowSum (cards.filter (fun c => !c.faceDown)))
    ∧ ((calculateHandValue cards).isSoft = true ↔
        (lowSum (cards.filter (fun c => !c.faceDown)) + 10 ≤ (calculateHandValue cards).value ∧
          (calculateHandValue cards).value ≤ 21))
    ∧ ((calculateHandValue cards).isBusted = true ↔ 21 < (calculateHandValue cards).value)
    ∧ ((calculateHandValue cards).isBlackjack = true ↔
        ((cards.filter (fun c => !c.faceDown)).length = 2 ∧
          (calculateHandValue cards).value = 21))
    ∧ (cards.filter (fun c => !c.faceDown) = [] →
        calculateHandValue cards = ⟨0, false, false, false⟩) := by
  have hk_le := bestK_le (lowSum (cards.filter (fun c => !c.faceDown)))
    (aceCount (cards.filter (fun c => !c.faceDown)))
  have hk_good := bestK_good (lowSum (cards.filter (fun c => !c.faceDown)))
    (aceCount (cards.filter (fun c => !c.faceDown)))
  have hk_max := bestK_max (lowSum (cards.filter (fun c => !c.faceDown)))
    (aceCount (cards.filter (fun c => !c.faceDown)))
  refine ⟨?_, ?_, ?_, ?_, ?_, ?_, ?_⟩
  · rw [calculateHandValue_eq, calculateHandValue_eq]
    simp [List.filter_filter]
  · rintro ⟨k, hk, hk21⟩
    rw [calculateHandValue_eq]
    dsimp only
    refine ⟨bestK _ _, hk_le, rfl, ?_, ?_⟩
    · rcases hk_good with h | h
      · exact h
      · have := hk_max k hk hk21
        omega
    · intro k2 h1 h2
      have := hk_max k2 h1 h2
      omega
  · intro hall
    rw [calculateHandValue_eq]
    dsimp only
    rcases hk_good with h | h
    · exact absurd h (by have := hall _ hk_le; omega)
    · omega
  · rw [calculateHandValue_eq]
    simp only [Bool.and_eq_true, decide_eq_true_eq]
    omega
  · rw [calculateHandValue_eq]
    simp only [decide_eq_true_eq]
  · rw [calculateHandValue_eq]
    simp only [Bool.and_eq_true, decide_eq_true_eq]
  · intro h
    rw [calculateHandValue_eq, h]
    rfl

/-- C10: the `HandResult` returned by `calculateHandValue` is internally
consistent: `isBusted` holds exactly when the value exceeds 21, a hand is
never both soft and busted, and a blackjack is never busted. -/
theorem claim_C10_handResult_consistent (cards : List Card) :
    (calculateHandValue cards).isBusted = decide (21 < (calculateHandValue cards).value)
    ∧ ((calculateHandValue cards).isSoft && (calculateHandValue cards).isBusted) = false
    ∧ ((calculateHandValue cards).isBlackjack && (calculateHandValue cards).isBusted) = false := by
  rw [calculateHandValue_eq]
  refine ⟨rfl, ?_, ?_⟩
  · rcases Nat.lt_or_ge 21 (lowSum (cards.filter (fun c => !c.faceDown)) +
      10 * bestK (lowSum (cards.filter (fun c => !c.faceDown)))
        (aceCount (cards.filter (fun c => !c.faceDown)))) with h | h
    · simp [Nat.not_le_of_lt h]
    · simp [Nat.not_lt_of_ge h]
  · rcases Nat.lt_or_ge 21 (lowSum (cards.filter (fun c => !c.faceDown)) +
      10 * bestK (lowSum (cards.filter (fun c => !c.faceDown)))
        (aceCount (cards.filter (fun c => !c.faceDown)))) with h | h
    · simp
      omega
    · simp [Nat.not_lt_of_ge h]

/-- Outcome tags (`'win' | 'lose' | 'push' | 'blackjack' | 'surrender'`). -/
inductive Outcome where
  | win
  | lose
  | push
  | blackjack
  | surrender
deriving DecidableEq, Repr

/-- The `determineOutcome` function: the nested early-return chain of the
source, as nested conditionals. -/
def determineOutcome (playerValue : Nat) (playerBlackjack playerBusted : Bool)
    (dealerValue : Nat) (dealerBlackjack dealerBusted : Bool) : Outcome :=
  if playerBusted then .lose
  else if dealerBusted then .win
  else if playerBlackjack && dealerBlackjack then .push
  else if playerBlackjack then .blackjack
  else if dealerBlackjack then .lose
  else if playerValue > dealerValue then .win
  else if playerValue < dealerValue then .lose
  else .push

/-- First-match-wins evaluation of a guarded decision table, with a default
for when no guard fires. -/
def firstMatch : List (Bool × Outcome) → Outcome → Outcome
  | [], dflt => dflt
  | (g, o) :: rest, dflt => if g then o else firstMatch rest dflt

/-- The decision table claimed for `determineOutcome`, in the claimed
precedence order (the final equal-values case is the table's default). -/
def outcomeTable (playerValue : Nat) (playerBlackjack playerBusted : Bool)
    (dealerValue : Nat) (dealerBlackjack dealerBusted : Bool) : List (Bool × Outcome) :=
  [(playerBusted, .lose),
   (dealerBusted, .win),
   (playerBlackjack && dealerBlackjack, .push),
   (playerBlackjack, .blackjack),
   (dealerBlackjack, .lose),
   (decide (playerValue > dealerValue), .win),
   (decide (playerValue < dealerValue), .lose)]

/-- C2: `determineOutcome` evaluates exactly the claimed decision table in
first-match-wins order: busted player loses regardless of everything else,
then busted dealer wins, then both-blackjack pushes, then player-only
blackjack pays blackjack, then dealer-only blackjack loses, then the values
are compared with equality pushing. -/
theorem claim_C2_determineOutcome (playerValue dealerValue : Nat)
    (playerBlackjack playerBusted dealerBlackjack dealerBusted : Bool) :
    determineOutcome playerValue playerBlackjack playerBusted
        dealerValue dealerBlackjack dealerBusted =
      firstMatch (outcomeTable playerValue playerBlackjack playerBusted
        dealerValue dealerBlackjack dealerBusted) Outcome.push := by
  cases playerBlackjack <;> cases playerBusted <;>
    cases dealerBlackjack <;> cases dealerBusted <;>
      by_cases h1 : playerValue > dealerValue <;>
        by_cases h2 : playerValue < dealerValue <;>
          first
            | exact absurd h1 (by omega)
            | simp [determineOutcome, outcomeTable, firstMatch, h1, h2]

/-- The `tenValues` list of `canSplit`. -/
def tenValues : List Rank := [.ten, .jack, .queen, .king]

/-- The `canSplit` function. -/
def canSplit (hand : List Card) (numSplitsDone : Nat) (isAces : Bool)
    (config : GameConfig) : Bool :=
  if config.maxSplits ≤ numSplitsDone then false
  else if isAces && !config.rsaAllowed && decide (0 < numSplitsDone) then false
  else
    match hand with
    | [c1, c2] =>
      if c1.rank = c2.rank then true
      else if tenValues.contains c1.rank && tenValues.contains c2.rank then true
      else false
    | _ => false

/-- C3: `canSplit` returns true iff the split counter is below the
configured maximum, it is not a re-split of aces with RSA disabled (a first
split of aces is always allowed), and the hand is exactly two cards whose
ranks are identical or both in the ten-value group; every other input
yields `false`. -/
theorem claim_C3_canSplit (hand : List Card) (numSplitsDone : Nat) (isAces : Bool)
    (config : GameConfig) :
    canSplit hand numSplitsDone isAces config = true ↔
      (numSplitsDone < config.maxSplits ∧
        ¬(isAces = true ∧ config.rsaAllowed = false ∧ 0 < numSplitsDone) ∧
        ∃ c1 c2, hand = [c1, c2] ∧
          (c1.rank = c2.rank ∨ (c1.rank ∈ tenValues ∧ c2.rank ∈ tenValues))) := by
  rcases hand with _ | ⟨c1, _ | ⟨c2, _ | ⟨c3, t⟩⟩⟩ <;>
    simp only [canSplit] <;>
      split_ifs with h1 h2 h3 h4 <;>
        simp_all <;>
          first
            | omega
            | exact ⟨c1, c2, ⟨rfl, rfl⟩, Or.inl h3⟩
            | exact ⟨c1, c2, ⟨rfl, rfl⟩, Or.inr h4⟩

/-- The `dealerShouldHit` function (H17 rule). -/
def dealerShouldHit (dealerCards : List Card) (config : GameConfig) : Bool :=
  let result := calculateHandValue dealerCards
  if result.value < 17 then true
  else if decide (result.value = 17) && result.isSoft && config.dealerHitsSoft17 then true
  else false

/-- C4: `dealerShouldHit` returns true iff the dealer hand value is below
17, or it is exactly a soft 17 and the configuration has the dealer hit
soft 17; it returns false on hard 17, on any 18 or more, and on soft 17
with that rule disabled. -/
theorem claim_C4_dealerShouldHit (dealerCards : List Card) (config : GameConfig) :
    dealerShouldHit dealerCards config = true ↔
      ((calculateHandValue dealerCards).value < 17 ∨
        ((calculateHandValue dealerCards).value = 17 ∧
          (calculateHandValue dealerCards).isSoft = true ∧
          config.dealerHitsSoft17 = true)) := by
  simp only [dealerShouldHit]
  split_ifs with h1 h2 <;> simp_all

/-- The `{ card, remainingShoe }` record returned by `drawCard`. -/
structure DrawResult where
  card : Card
  remainingShoe : List Card
deriving DecidableEq, Repr

/-- The `drawCard` function: `pop` removes the last element of the copied
array, so a draw takes the last element and keeps the rest; an empty shoe
yields the `null` sentinel, modelled as `none`. -/
def drawCard (shoe : List Card) : Option DrawResult :=
  match shoe.getLast? with
  | none => none
  | some c => some ⟨c, shoe.dropLast⟩

/-- C5: `drawCard` returns the no-card sentinel exactly on the empty shoe,
and on any non-empty shoe returns the last element together with the input
minus its last element, in order.  The embedding is a pure function, so the
input list is unchanged, matching the source's copy-before-pop. -/
theorem claim_C5_drawCard :
    (∀ shoe : List Card, drawCard shoe = none ↔ shoe = [])
    ∧ (∀ (l : List Card) (c : Card), drawCard (l ++ [c]) = some ⟨c, l⟩) := by
  constructor
  · intro shoe
    rcases shoe.eq_nil_or_concat with h | ⟨L, b, h⟩ <;> subst h <;> simp [drawCard]
  · intro l c
    simp [drawCard]

/-- The `needsReshuffle` function; `penetration` and the cut point are
fractional, so the arithmetic is over `ℚ`. -/
def needsReshuffle (shoe : List Card) (config : GameConfig) : Bool :=
  let totalCards : ℚ := config.numDecks * 52
  let cutPoint : ℚ := totalCards * config.penetration
  let cardsUsed : ℚ := totalCards - (shoe.length : ℚ)
  decide (cutPoint ≤ cardsUsed)

/-- C7: `needsReshuffle` is true iff the used-card count
`totalCards - shoe.length` has reached `totalCards * penetration`, with
`totalCards = numDecks * 52`; a full 312-card six-deck shoe is below the
default 75% cut point and a shoe down to 70 cards is past it.  It is a pure
predicate of its two arguments. -/
theorem claim_C7_needsReshuffle (shoe : List Card) (config : GameConfig) :
    (needsReshuffle shoe config = true ↔
      (config.numDecks * 52 : ℚ) * config.penetration ≤
        (config.numDecks * 52 : ℚ) - (shoe.length : ℚ))
    ∧ needsReshuffle (List.replicate 312 ⟨Rank.ace, Suit.spades, false, false⟩)
        DEFAULT_CONFIG = false
    ∧ needsReshuffle (List.replicate 70 ⟨Rank.ace, Suit.spades, false, false⟩)
        DEFAULT_CONFIG = true := by
  refine ⟨?_, ?_, ?_⟩
  · simp [needsReshuffle]
  · simp only [needsReshuffle, DEFAULT_CONFIG, List.length_replicate,
      decide_eq_false_iff_not, not_le]
    norm_num
  · simp only [needsReshuffle, DEFAULT_CONFIG, List.length_replicate,
      decide_eq_true_eq]
    norm_num

/-- The `calculatePayout` function (`ℚ` for the fractional multipliers). -/
def calculatePayout (bet : ℚ) (outcome : Outcome) : ℚ :=
  match outcome with
  | .blackjack => bet * 2.5
  | .win => bet * 2
  | .push => bet
  | .surrender => bet * 0.5
  | .lose => 0

/-- C8: `calculatePayout` pays 2.5x the bet on blackjack, 2x on win, the
bet back on push, half the bet on surrender and 0 on lose; at a bet of 100
that is 250, 200, 100, 50 and 0, exactly, with no rounding. -/
theorem claim_C8_calculatePayout (bet : ℚ) :
    calculatePayout bet .blackjack = bet * 2.5
    ∧ calculatePayout bet .win = bet * 2
    ∧ calculatePayout bet .push = bet
    ∧ calculatePayout bet .surrender = bet * 0.5
    ∧ calculatePayout bet .lose = 0
    ∧ calculatePayout 100 .blackjack = 250
    ∧ calculatePayout 100 .win = 200
    ∧ calculatePayout 100 .push = 100
    ∧ calculatePayout 100 .surrender = 50
    ∧ calculatePayout 100 .lose = 0 := by
  refine ⟨rfl, rfl, rfl, rfl, rfl, ?_, ?_, ?_, ?_, rfl⟩ <;> norm_num [calculatePayout]

/-- The `dealerHasBlackjack` function: peek by mapping every card to a
face-up copy (`{ ...c, faceDown: false }`), leaving the originals alone. -/
def dealerHasBlackjack (dealerCards : List Card) : Bool :=
  if dealerCards.length ≠ 2 then false
  else (calculateHandValue (dealerCards.map (fun c => { c with faceDown := false }))).isBlackjack

/-- Reassignment of the face-down flags of a list of cards by an arbitrary
position-indexed choice of flags; used to state that `dealerHasBlackjack`
ignores the incoming flags. -/
def setFaceDownFlags : (Nat → Bool) → List Card → List Card
  | _, [] => []
  | f, c :: cs => { c with faceDown := f 0 } :: setFaceDownFlags (fun i => f (i + 1)) cs

theorem setFaceDownFlags_length (cs : List Card) : ∀ f : Nat → Bool,
    (setFaceDownFlags f cs).length = cs.length := by
  induction cs with
  | nil => intro f; rfl
  | cons c t ih => intro f; simp [setFaceDownFlags, ih]

theorem setFaceDownFlags_reveal (cs : List Card) : ∀ f : Nat → Bool,
    (setFaceDownFlags f cs).map (fun c => { c with faceDown := false }) =
      cs.map (fun c => { c with faceDown := false }) := by
  induction cs with
  | nil => intro f; rfl
  | cons c t ih => intro f; simp [setFaceDownFlags, ih]

/-- C9: `dealerHasBlackjack` is false on any list that is not exactly two
cards; on a two-card list it reports whether the pair, with every face-down
flag cleared, values to a blackjack; and it is invariant under arbitrary
reassignment of the face-down flags of its input.  The peek builds face-up
copies, so the caller's cards keep their flags (purity of the embedding). -/
theorem claim_C9_dealerHasBlackjack (dealerCards : List Card) :
    (dealerHasBlackjack dealerCards =
      (decide (dealerCards.length = 2) &&
        (calculateHandValue
          (dealerCards.map (fun c => { c with faceDown := false }))).isBlackjack))
    ∧ ∀ f : Nat → Bool,
        dealerHasBlackjack (setFaceDownFlags f dealerCards) =
          dealerHasBlackjack dealerCards := by
  constructor
  · by_cases h : dealerCards.length = 2 <;> simp [dealerHasBlackjack, h]
  · intro f
    by_cases h : dealerCards.length = 2 <;>
      simp [dealerHasBlackjack, setFaceDownFlags_length, setFaceDownFlags_reveal, h]

/-- Placeholder for out-of-range list reads; the shuffle only reads
in-range indices, so it is never actually produced. -/
def placeholderCard : Card := ⟨Rank.ace, Suit.spades, false, false⟩

/-- One JavaScript destructuring swap
`[shuffled[i], shuffled[j]] = [shuffled[j], shuffled[i]]`: both old values
are read first, then written to positions `i` and `j`. -/
def swapCards (l : List Card) (i j : Nat) : List Card :=
  (l.set i (l.getD j placeholderCard)).set j (l.getD i placeholderCard)

/-- The Fisher-Yates loop `for (let i = n - 1; i > 0; i--)` of
`shuffleCards`, counting the loop variable down; at each `i ≥ 1` the card
at `i` is swapped with the one at the oracle's index `r i`. -/
def fyLoop (r : Nat → Nat) : Nat → List Card → List Card
  | 0, l => l
  | i + 1, l => fyLoop r i (swapCards l (i + 1) (r (i + 1)))

/-- The `shuffleCards` function, with the random index oracle made
explicit. -/
def shuffleCards (r : Nat → Nat) (cards : List Card) : List Card :=
  fyLoop r (cards.length - 1) cards

/-- The `suits` array of `createShoe`. -/
def suitsList : List Suit := [.spades, .hearts, .diamonds, .clubs]

/-- The `ranks` array of `createShoe`. -/
def ranksList : List Rank :=
  [.ace, .two, .three, .four, .five, .six, .seven, .eight, .nine, .ten,
   .jack, .queen, .king]

/-- One 52-card deck in the source's push order (suit-major, then rank). -/
def oneDeck : List Card :=
  (suitsList.map (fun s => ranksList.map (fun rk => ({ rank := rk, suit := s } : Card)))).flatten

/-- The `createShoe` function: `numDecks` copies of the deck, then
shuffled. -/
def createShoe (r : Nat → Nat) (numDecks : Nat) : List Card :=
  shuffleCards r (List.replicate numDecks oneDeck).flatten

theorem getD_cons_set_perm (d : Card) : ∀ (l : List Card) (i : Nat) (a : Card),
    i < l.length → List.Perm (l.getD i d :: l.set i a) (a :: l) := by
  intro l
  induction l with
  | nil => intro i a h; simp at h
  | cons x xs ih =>
    intro i a h
    cases i with
    | zero =>
      simpa using List.Perm.swap a x xs
    | succ n =>
      have h' : n < xs.length := by simpa using Nat.lt_of_succ_lt_succ h
      show (xs.getD n d :: x :: xs.set n a).Perm (a :: x :: xs)
      exact (List.Perm.swap x (xs.getD n d) (xs.set n a)).trans
        (((ih n a h').cons x).trans (List.Perm.swap a x xs))

theorem swapCards_perm (l : List Card) (i j : Nat) (hi : i < l.length)
    (hj : j < l.length) : List.Perm (swapCards l i j) l := by
  have hj' : j < (l.set i (l.getD j placeholderCard)).length := by simpa using hj
  have h1 := getD_cons_set_perm placeholderCard (l.set i (l.getD j placeholderCard)) j
    (l.getD i placeholderCard) hj'
  have h2 := getD_cons_set_perm placeholderCard l i (l.getD j placeholderCard) hi
  have hget : (l.set i (l.getD j placeholderCard)).getD j placeholderCard =
      l.getD j placeholderCard := by
    by_cases hij : i = j
    · subst hij
      simp [List.getD, List.getElem?_set, hi]
    · simp [List.getD, List.getElem?_set, hij]
  rw [hget] at h1
  have hchain := h1.trans h2
  exact (List.perm_cons (l.getD j placeholderCard)).mp hchain

theorem fyLoop_perm (r : Nat → Nat) (hr : ∀ k, r k ≤ k) : ∀ (i : Nat) (l : List Card),
    i < l.length → List.Perm (fyLoop r i l) l := by
  intro i
  induction i with
  | zero => intro l _; exact List.Perm.refl l
  | succ n ih =>
    intro l h
    have hswap := swapCards_perm l (n + 1) (r (n + 1)) h
      (Nat.lt_of_le_of_lt (hr (n + 1)) h)
    have hlen := hswap.length_eq
    have hn : n < (swapCards l (n + 1) (r (n + 1))).length := by omega
    exact (ih _ hn).trans hswap

theorem shuffleCards_perm (r : Nat → Nat) (hr : ∀ k, r k ≤ k) (cards : List Card) :
    List.Perm (shuffleCards r cards) cards := by
  cases cards with
  | nil => exact List.Perm.refl _
  | cons x xs =>
    apply fyLoop_perm r hr
    simp

theorem flatten_replicate_length (d : List Card) : ∀ n : Nat,
    ((List.replicate n d).flatten).length = n * d.length := by
  intro n
  induction n with
  | zero => simp
  | succ m ih =>
    simp only [List.replicate_succ, List.flatten_cons, List.length_append, ih]
    ring

theorem flatten_replicate_multiset (d : List Card) : ∀ n : Nat,
    (((List.replicate n d).flatten : List Card) : Multiset Card) =
      n • ((d : List Card) : Multiset Card) := by
  intro n
  induction n with
  | zero => simp
  | succ m ih =>
    rw [List.replicate_succ, List.flatten_cons, ← Multiset.coe_add, ih,
      succ_nsmul, add_comm]

/-- C6: with any in-range index oracle, `shuffleCards` returns a
permutation of its input (same length, same multiset; the input itself is
untouched, the source shuffling a copy), and `createShoe` therefore has
exactly `numDecks * 52` cards whose multiset is `numDecks` copies of the
full 52-card deck. -/
theorem claim_C6_shuffle_createShoe (r : Nat → Nat) (hr : ∀ i, r i ≤ i) :
    (∀ cards : List Card,
      List.Perm (shuffleCards r cards) cards ∧
      (shuffleCards r cards).length = cards.length ∧
      ((shuffleCards r cards : List Card) : Multiset Card) =
        ((cards : List Card) : Multiset Card))
    ∧ (∀ numDecks : Nat,
        (createShoe r numDecks).length = numDecks * 52 ∧
        ((createShoe r numDecks : List Card) : Multiset Card) =
          numDecks • ((oneDeck : List Card) : Multiset Card))
    ∧ oneDeck.length = 52 ∧ oneDeck.Nodup := by
  refine ⟨?_, ?_, rfl, by decide⟩
  · intro cards
    have hp := shuffleCards_perm r hr cards
    exact ⟨hp, hp.length_eq, Multiset.coe_eq_coe.mpr hp⟩
  · intro numDecks
    have hp := shuffleCards_perm r hr (List.replicate numDecks oneDeck).flatten
    constructor
    · rw [createShoe, hp.length_eq, flatten_replicate_length]
      rfl
    · rw [createShoe]
      rw [Multiset.coe_eq_coe.mpr hp, flatten_replicate_multiset]

/-- Witness for C6: the identity oracle (always index 0) satisfies the
in-range hypothesis, and the conclusions evaluate at a 2-card list and a
1-deck shoe. -/
theorem claim_C6_witness :
    (shuffleCards (fun _ => 0)
      [⟨Rank.ace, Suit.spades, false, false⟩,
       ⟨Rank.king, Suit.hearts, false, false⟩]).length = 2
    ∧ (createShoe (fun _ => 0) 1).length = 1 * 52 := by
  have h := claim_C6_shuffle_createShoe (fun _ => 0) (fun i => Nat.zero_le i)
  exact ⟨(h.1 _).2.1, ((h.2).1 1).1⟩
